import Mathlib

/-
Shallow embedding of the tuido task manager core (src/main.go).

The Go program is a single-file bubbletea application.  The embedding below
models the application state (`Model`), the store operations, the
filter/search projection, the undo history and the relevant pieces of the
key dispatch, translated function by function from src/main.go.

Conventions used throughout:
  * Go slices of structs become Lean lists; `append`, `drop`, `dropLast`
    mirror the slice operations used by the source.
  * Go `int` becomes `Int` (the selection index can legitimately reach -1
    through `len(filtered)-1` on an empty filtered list, so `Nat` would be
    unfaithful).
  * Go out-of-range indexing panics; every embedded operation that can index
    out of range returns `Option Model`, with `none` standing for the panic.
  * UI-widget state (textinput models, window size, key maps, help, config
    path) belongs to the excluded rendering/input collaborators and carries
    no core semantics, so it is not part of the state record; the text a
    dialog would deliver is passed as an explicit argument instead.
-/

namespace Tuido

/-- Task record, from `type Task struct` in src/main.go (ID, Task, Checked,
Context, Priority, Tags, DueDate). -/
structure Task where
  ID : Int
  task : String
  checked : Bool
  context : String
  priority : String
  tags : List String
  dueDate : String
deriving DecidableEq

/-- View modes, from the `ViewMode` constants in src/main.go. -/
inductive ViewMode where
  | NormalView
  | SearchView
  | KanbanView
  | StatsView
  | InputView
  | DateInputView
  | RemoveTagView
deriving DecidableEq

/-- Input dialog purposes, from the `InputMode` constants in src/main.go. -/
inductive InputMode where
  | AddTaskInput
  | EditTaskInput
  | AddContextInput
  | RenameContextInput
  | AddTagInput
  | SearchInput
  | DeleteConfirmInput
deriving DecidableEq

/-- Core application state, from `type Model struct` in src/main.go
(core + view + history fields; excluded UI-widget fields omitted). -/
structure Model where
  tasks : List Task
  contexts : List String
  currentContext : String
  selectedIndex : Int
  nextID : Int
  viewMode : ViewMode
  inputMode : InputMode
  searchResults : List Task
  prevContext : String
  prevIndex : Int
  movingMode : Bool
  movingTaskIndex : Int
  removeTagChecks : List Bool
  errorMessage : String
  history : List (List Task)
  maxHistory : Nat
deriving DecidableEq

/-- Go slice indexing `l[i]` with an `int` index: `none` models the
out-of-range panic (negative or past the end). -/
def getAt {α : Type} (l : List α) (i : Int) : Option α :=
  if h : 0 ≤ i ∧ i.toNat < l.length then some (l.get ⟨i.toNat, h.2⟩) else none

/-- `getTasksForContext` from src/main.go: tasks of a context in sequence
order. -/
def getTasksForContext (m : Model) (context : String) : List Task :=
  m.tasks.filter (fun t => t.context = context)

/-- `getFilteredTasks` from src/main.go: search results in search view,
otherwise the current context projection. -/
def getFilteredTasks (m : Model) : List Task :=
  if m.viewMode = ViewMode.SearchView then m.searchResults
  else getTasksForContext m m.currentContext

/-- The Go pattern `for i := range m.tasks { if m.tasks[i].ID == id { ...;
break } }` mutating the first task with the given ID. -/
def mutateFirst (id : Int) (f : Task → Task) : List Task → List Task
  | [] => []
  | t :: rest => if t.ID = id then f t :: rest else t :: mutateFirst id f rest

/-- The delete loop of `deleteCurrentTask`: remove the first task with the
given ID, keeping the rest in order. -/
def removeFirst (id : Int) : List Task → List Task
  | [] => []
  | t :: rest => if t.ID = id then rest else t :: removeFirst id rest

/-- `toggleCurrentTask` from src/main.go.  Only emptiness is guarded; a
selection index outside the non-empty visible list indexes out of range
(`none`). -/
def toggleCurrentTask (m : Model) : Option Model :=
  let tasks := getFilteredTasks m
  if tasks.isEmpty then some m
  else
    match getAt tasks m.selectedIndex with
    | none => none
    | some cur =>
        some { m with
          tasks := mutateFirst cur.ID (fun t => { t with checked := !t.checked }) m.tasks }

/-- `editCurrentTask` from src/main.go. -/
def editCurrentTask (m : Model) (newText : String) : Option Model :=
  let tasks := getFilteredTasks m
  if tasks.isEmpty then some m
  else
    match getAt tasks m.selectedIndex with
    | none => none
    | some cur =>
        some { m with
          tasks := mutateFirst cur.ID (fun t => { t with task := newText }) m.tasks }

/-- The priority cycle of `toggleCurrentTaskPriority`: the Go loop leaves
`currentIdx` at 0 when the stored priority is not in the list. -/
def cyclePriority (p : String) : String :=
  let priorities : List String := ["", "low", "medium", "high"]
  let ci := match priorities.findIdx? (fun q => q = p) with
    | some j => j
    | none => 0
  priorities.getD ((ci + 1) % 4) ""

/-- `toggleCurrentTaskPriority` from src/main.go. -/
def toggleCurrentTaskPriority (m : Model) : Option Model :=
  let tasks := getFilteredTasks m
  if tasks.isEmpty then some m
  else
    match getAt tasks m.selectedIndex with
    | none => none
    | some cur =>
        some { m with
          tasks := mutateFirst cur.ID (fun t => { t with priority := cyclePriority t.priority }) m.tasks }

/-- `addTagToCurrentTask` from src/main.go: duplicate tags are silently
ignored. -/
def addTagToCurrentTask (m : Model) (tag : String) : Option Model :=
  let tasks := getFilteredTasks m
  if tasks.isEmpty then some m
  else
    match getAt tasks m.selectedIndex with
    | none => none
    | some cur =>
        some { m with
          tasks := mutateFirst cur.ID
            (fun t => if tag ∈ t.tags then t else { t with tags := t.tags ++ [tag] }) m.tasks }

/-- The filter loop of `removeTagsFromCurrentTask`: keep tags whose checkbox
is unchecked; indexing `removeTagChecks[j]` past its length panics. -/
def keepUnchecked : List String → List Bool → Option (List String)
  | [], _ => some []
  | _ :: _, [] => none
  | tag :: tags, c :: cs =>
      (keepUnchecked tags cs).map (fun r => if c then r else tag :: r)

/-- Variant of `mutateFirst` whose mutation can panic. -/
def mutateFirstM (id : Int) (f : Task → Option Task) : List Task → Option (List Task)
  | [] => some []
  | t :: rest =>
      if t.ID = id then (f t).map (fun u => u :: rest)
      else (mutateFirstM id f rest).map (fun r => t :: r)

/-- `removeTagsFromCurrentTask` from src/main.go. -/
def removeTagsFromCurrentTask (m : Model) : Option Model :=
  let tasks := getFilteredTasks m
  if tasks.isEmpty then some m
  else
    match getAt tasks m.selectedIndex with
    | none => none
    | some cur =>
        (mutateFirstM cur.ID
          (fun t => (keepUnchecked t.tags m.removeTagChecks).map (fun ts => { t with tags := ts }))
          m.tasks).map (fun ts => { m with tasks := ts })

/-- ASCII lowering of one character (`strings.ToLower`; the program only
ever compares ASCII text). -/
def lowerChar (c : Char) : Char :=
  if 'A' ≤ c ∧ c ≤ 'Z' then Char.ofNat (c.toNat + 32) else c

/-- `strings.ToLower`. -/
def strToLower (s : String) : String := ⟨s.toList.map lowerChar⟩

/-- `strings.TrimSpace`. -/
def strTrim (s : String) : String :=
  ⟨((s.toList.dropWhile Char.isWhitespace).reverse.dropWhile Char.isWhitespace).reverse⟩

/-- `strings.Split` with a one-character separator. -/
def splitChar (sep : Char) : List Char → List (List Char)
  | [] => [[]]
  | c :: r =>
      let rest := splitChar sep r
      if c = sep then [] :: rest
      else
        match rest with
        | [] => [[c]]
        | h :: t => (c :: h) :: t

/-- `strings.Split s "-"`. -/
def splitDash (s : String) : List String := (splitChar '-' s.toList).map (fun l => ⟨l⟩)

/-- `strconv.Atoi`: optional sign followed by at least one decimal digit.
Values here stay far below 2^63, and an overflowing component would be
rejected by the date range checks exactly as Go rejects the `Atoi` error,
so the unbounded result is observationally faithful. -/
def digitsVal (acc : Nat) : List Char → Option Nat
  | [] => some acc
  | c :: r => if c.isDigit then digitsVal (acc * 10 + (c.toNat - 48)) r else none

/-- `strconv.Atoi` on a whole string. -/
def atoi? (s : String) : Option Int :=
  match s.toList with
  | [] => none
  | '+' :: rest =>
      match rest with
      | [] => none
      | _ => (digitsVal 0 rest).map (fun n => (n : Int))
  | '-' :: rest =>
      match rest with
      | [] => none
      | _ => (digitsVal 0 rest).map (fun n => -(n : Int))
  | l => (digitsVal 0 l).map (fun n => (n : Int))

/-- The date validation of `setDueDateForCurrentTask` in src/main.go:
split on "-", three parts, `year > 1900 && year < 3000`,
`month >= 1 && month <= 12`, `day >= 1 && day <= 31`. -/
def validDateStr (s : String) : Bool :=
  match splitDash s with
  | [y, mo, d] =>
      match atoi? y, atoi? mo, atoi? d with
      | some yi, some mi, some di =>
          if 1900 < yi ∧ yi < 3000 then
            if 1 ≤ mi ∧ mi ≤ 12 then
              if 1 ≤ di ∧ di ≤ 31 then true else false
            else false
          else false
      | _, _, _ => false
  | _ => false

/-- Body of the ID-match branch of `setDueDateForCurrentTask`: clear, set
when valid, or set the error message; no-op when no task carries the ID. -/
def applyDueDate (m : Model) (id : Int) (dateStr : String) : Model :=
  if m.tasks.any (fun t => t.ID = id) then
    if strToLower dateStr = "clear" then
      { m with tasks := mutateFirst id (fun t => { t with dueDate := "" }) m.tasks }
    else if dateStr ≠ "" then
      if validDateStr dateStr then
        { m with tasks := mutateFirst id (fun t => { t with dueDate := dateStr }) m.tasks }
      else { m with errorMessage := "Invalid date format. Use YYYY-MM-DD" }
    else m
  else m

/-- `setDueDateForCurrentTask` from src/main.go. -/
def setDueDateForCurrentTask (m : Model) (dateStr : String) : Option Model :=
  let tasks := getFilteredTasks m
  if tasks.isEmpty then some m
  else
    match getAt tasks m.selectedIndex with
    | none => none
    | some cur => some (applyDueDate m cur.ID dateStr)

/-- `addTask` from src/main.go: append with ID `nextID`, bump the counter,
select the last visible task. -/
def addTask (m : Model) (taskText : String) : Model :=
  let newTask : Task :=
    { ID := m.nextID, task := taskText, checked := false,
      context := m.currentContext, priority := "", tags := [], dueDate := "" }
  let m1 := { m with tasks := m.tasks ++ [newTask], nextID := m.nextID + 1 }
  { m1 with selectedIndex := ((getFilteredTasks m1).length : Int) - 1 }

/-- `deleteCurrentTask` from src/main.go, with the post-delete clamp
`if m.selectedIndex >= len(newTasks) && len(newTasks) > 0`. -/
def deleteCurrentTask (m : Model) : Option Model :=
  let tasks := getFilteredTasks m
  if tasks.isEmpty then some m
  else
    match getAt tasks m.selectedIndex with
    | none => none
    | some cur =>
        let m1 := { m with tasks := removeFirst cur.ID m.tasks }
        let newTasks := getFilteredTasks m1
        some (if (newTasks.length : Int) ≤ m1.selectedIndex ∧ 0 < newTasks.length then
          { m1 with selectedIndex := (newTasks.length : Int) - 1 }
        else m1)

/-- `addContext` from src/main.go. -/
def addContext (m : Model) (contextName : String) : Model :=
  if contextName ∈ m.contexts then { m with errorMessage := "Context already exists" }
  else { m with
    contexts := m.contexts ++ [contextName],
    currentContext := contextName,
    selectedIndex := 0 }

/-- The registry-update loop of `renameContext` replaces only the first
matching entry (the Go loop breaks). -/
def replaceFirstStr (oldN newN : String) : List String → List String
  | [] => []
  | c :: rest => if c = oldN then newN :: rest else c :: replaceFirstStr oldN newN rest

/-- `renameContext` from src/main.go. -/
def renameContext (m : Model) (newName : String) : Model :=
  if newName = m.currentContext then m
  else if newName ∈ m.contexts then { m with errorMessage := "Context name already exists" }
  else
    let oldName := m.currentContext
    { m with
      contexts := replaceFirstStr oldName newName m.contexts,
      tasks := m.tasks.map (fun t => if t.context = oldName then { t with context := newName } else t),
      currentContext := newName }

/-- `deleteContext` from src/main.go: cascade-delete the current context's
tasks, drop the registry entry, switch to the first remaining entry. -/
def deleteContext (m : Model) : Model :=
  if m.contexts.length ≤ 1 then { m with errorMessage := "Cannot delete the only context" }
  else
    let m1 := { m with
      tasks := m.tasks.filter (fun t => t.context ≠ m.currentContext),
      contexts := m.contexts.filter (fun c => c ≠ m.currentContext) }
    if 0 < m1.contexts.length then
      { m1 with currentContext := m1.contexts.headD "", selectedIndex := 0 }
    else m1

/-- Byte-wise (equivalently code-point-wise) lexicographic comparison, the
order used by Go's `sort.Strings`. -/
def charListLe : List Char → List Char → Bool
  | [], _ => true
  | _ :: _, [] => false
  | a :: as, b :: bs => if a < b then true else if b < a then false else charListLe as bs

/-- String comparison for `sort.Strings`. -/
def strLe (a b : String) : Bool := charListLe a.toList b.toList

/-- Insertion step of the sort used to model `sort.Strings`. -/
def insertSorted (x : String) : List String → List String
  | [] => [x]
  | y :: r => if strLe x y then x :: y :: r else y :: insertSorted x r

/-- Model of `sort.Strings` (on a duplicate-free input both produce the one
sorted duplicate-free list). -/
def sortStrings (l : List String) : List String := l.foldr insertSorted []

/-- Key collection of the Go `contextMap`: first occurrences, duplicates
dropped (any collection order yields the same sorted result). -/
def dedupStrGo : List String → List String → List String
  | [], _ => []
  | x :: r, seen => if x ∈ seen then dedupStrGo r seen else x :: dedupStrGo r (x :: seen)

/-- Deduplicate a string list keeping first occurrences. -/
def dedupStr (l : List String) : List String := dedupStrGo l []

/-- The context registry `updateContexts` computes from a task list:
sorted distinct task contexts, or the default `["Work"]` when there are
none. -/
def contextsOf (ts : List Task) : List String :=
  let cs := sortStrings (dedupStr (ts.map (fun t => t.context)))
  if cs = [] then ["Work"] else cs

/-- `updateContexts` from src/main.go: rebuild the registry from the tasks
and re-validate the current context. -/
def updateContexts (m : Model) : Model :=
  let cs := sortStrings (dedupStr (m.tasks.map (fun t => t.context)))
  let m1 := { m with contexts := cs }
  if m.currentContext = "" ∨ m.currentContext ∉ m.tasks.map (fun t => t.context) then
    if cs = [] then { m1 with contexts := ["Work"], currentContext := "Work" }
    else { m1 with currentContext := cs.headD "" }
  else m1

/-- `saveStateForUndo` from src/main.go: push a copy of the task sequence,
then evict the oldest entry when the bound is exceeded. -/
def saveStateForUndo (m : Model) : Model :=
  let h := m.history ++ [m.tasks]
  { m with history := if m.maxHistory < h.length then h.drop 1 else h }

/-- `undo` from src/main.go: pop the newest snapshot, restore it, rebuild
contexts, reset the selection; report when the history is empty. -/
def undo (m : Model) : Model :=
  match m.history.getLast? with
  | none => { m with errorMessage := "Nothing to undo" }
  | some snap =>
      { updateContexts { m with tasks := snap, history := m.history.dropLast } with
        selectedIndex := 0 }

/-- Prefix test on character lists (`needle` against the front of `hay`). -/
def headMatch : List Char → List Char → Bool
  | [], _ => true
  | _ :: _, [] => false
  | a :: as, b :: bs => a = b && headMatch as bs

/-- `strings.Contains` on character lists. -/
def scanHas (needle : List Char) : List Char → Bool
  | [] => needle.isEmpty
  | h :: t => headMatch needle (h :: t) || scanHas needle t

/-- `strings.Contains hay needle`. -/
def strContains (hay needle : String) : Bool := scanHas needle.toList hay.toList

/-- `searchTasks` from src/main.go: case-insensitive substring filter over
the whole task set; zero matches set a message and change nothing else.
(The Go message wraps the query in single quotes; the quotes are elided
here.) -/
def searchTasks (m : Model) (query : String) : Model :=
  let q := strToLower query
  let results := m.tasks.filter (fun t => strContains (strToLower t.task) q)
  if results.isEmpty then { m with errorMessage := "No tasks matching " ++ query }
  else
    { m with
      prevContext := m.currentContext,
      prevIndex := m.selectedIndex,
      searchResults := results,
      viewMode := ViewMode.SearchView,
      selectedIndex := 0 }

/-- `exitSearchMode` from src/main.go: restore the saved context and index
verbatim (no clamp). -/
def exitSearchMode (m : Model) : Model :=
  { m with
    viewMode := ViewMode.NormalView,
    currentContext := m.prevContext,
    selectedIndex := m.prevIndex,
    searchResults := [] }

/-- `moveUp` from src/main.go (cursor movement with wraparound). -/
def moveUp (m : Model) : Model :=
  let tasks := getFilteredTasks m
  if 0 < tasks.length then
    { m with selectedIndex := (m.selectedIndex - 1 + tasks.length).tmod tasks.length }
  else m

/-- `moveDown` from src/main.go. -/
def moveDown (m : Model) : Model :=
  let tasks := getFilteredTasks m
  if 0 < tasks.length then
    { m with selectedIndex := (m.selectedIndex + 1).tmod tasks.length }
  else m

/-- The reorder loop of `moveTaskUp` after the first element was seen:
swap the first ID match with the element before it. -/
def swapUpGo (id : Int) (prev : Task) : List Task → List Task
  | [] => [prev]
  | t :: rest => if t.ID = id then t :: prev :: rest else prev :: swapUpGo id t rest

/-- The reorder loop of `moveTaskUp`: an ID match at index 0 would read
`m.tasks[-1]` in Go (panic, `none`). -/
def swapUp (id : Int) : List Task → Option (List Task)
  | [] => some []
  | t :: rest => if t.ID = id then none else some (swapUpGo id t rest)

/-- The reorder loop of `moveTaskDown`: an ID match at the last index would
read one past the end in Go (panic, `none`). -/
def swapDown (id : Int) : List Task → Option (List Task)
  | [] => some []
  | t :: rest =>
      if t.ID = id then
        match rest with
        | [] => none
        | u :: rest2 => some (u :: t :: rest2)
      else (swapDown id rest).map (fun r => t :: r)

/-- `moveTaskUp` from src/main.go: the swap partner is the raw
array-previous task, whatever its context. -/
def moveTaskUp (m : Model) : Option Model :=
  let tasks := getFilteredTasks m
  if 0 < m.selectedIndex then
    match getAt tasks m.selectedIndex with
    | none => none
    | some sel =>
        (swapUp sel.ID m.tasks).map
          (fun ts => { m with tasks := ts, selectedIndex := m.selectedIndex - 1 })
  else some m

/-- `moveTaskDown` from src/main.go. -/
def moveTaskDown (m : Model) : Option Model :=
  let tasks := getFilteredTasks m
  if m.selectedIndex < (tasks.length : Int) - 1 then
    match getAt tasks m.selectedIndex with
    | none => none
    | some sel =>
        (swapDown sel.ID m.tasks).map
          (fun ts => { m with tasks := ts, selectedIndex := m.selectedIndex + 1 })
  else some m

/-- The `Move` key branch of `updateNormalView`: toggle move mode; on
activation remember the index, on deactivation push one history snapshot
(of the already-reordered sequence). -/
def pressMoveKey (m : Model) : Model :=
  if (getFilteredTasks m).isEmpty then m
  else
    let m1 := { m with movingMode := !m.movingMode }
    if m1.movingMode then { m1 with movingTaskIndex := m1.selectedIndex }
    else saveStateForUndo m1

/-- The `Up` key branch of `updateNormalView`. -/
def pressUpKey (m : Model) : Option Model :=
  if m.movingMode then moveTaskUp m else some (moveUp m)

/-- The `Down` key branch of `updateNormalView`. -/
def pressDownKey (m : Model) : Option Model :=
  if m.movingMode then moveTaskDown m else some (moveDown m)

/-- The `Enter` branch of `updateInputMode` in src/main.go: trim the input,
dispatch on the dialog purpose, then unconditionally set the view mode back
to `NormalView` (the line that overwrites the `SearchView` set by
`searchTasks`). -/
def confirmInput (m : Model) (raw : String) : Option Model :=
  let input := strTrim raw
  let step : Option Model :=
    match m.inputMode with
    | InputMode.AddTaskInput =>
        if input ≠ "" then some (addTask (saveStateForUndo m) input) else some m
    | InputMode.EditTaskInput =>
        if input ≠ "" then editCurrentTask (saveStateForUndo m) input else some m
    | InputMode.AddContextInput =>
        if input ≠ "" then some (addContext m input) else some m
    | InputMode.RenameContextInput =>
        if input ≠ "" ∧ input ≠ m.currentContext then some (renameContext m input) else some m
    | InputMode.AddTagInput =>
        if input ≠ "" then addTagToCurrentTask (saveStateForUndo m) input else some m
    | InputMode.SearchInput =>
        if input ≠ "" then some (searchTasks m input)
        else some { m with viewMode := ViewMode.NormalView }
    | InputMode.DeleteConfirmInput =>
        if strToLower input = "y" then some (deleteContext (saveStateForUndo m)) else some m
  step.map (fun m2 => { m2 with viewMode := ViewMode.NormalView })

/-- Placeholder task used only as the default of positional lookups in the
spec-side definitions below. -/
def dummyTask : Task :=
  { ID := 0, task := "", checked := false, context := "", priority := "", tags := [], dueDate := "" }

/-- Exchange the elements at two positions of a task list. -/
def swapIdx (ts : List Task) (i j : Nat) : List Task :=
  (ts.set i (ts.getD j dummyTask)).set j (ts.getD i dummyTask)

/-- Spec-side definition, following the words of the claim for `moveTask`:
swap the selected task with its nearest *preceding task of the same
context* in the global sequence (its neighbor in the visible list), the
swap acting on the two global positions.  Declared only to be compared
against `moveTaskUp`, which is translated from the source. -/
def specMoveTaskUp (m : Model) : Option Model :=
  let tasks := getFilteredTasks m
  if 0 < m.selectedIndex then
    match getAt tasks m.selectedIndex with
    | none => none
    | some sel =>
        match m.tasks.findIdx? (fun t => t.ID == sel.ID) with
        | none => some m
        | some gi =>
            match ((List.range gi).filter
                (fun j => (m.tasks.getD j dummyTask).context == sel.context)).getLast? with
            | none => some m
            | some pj =>
                some { m with tasks := swapIdx m.tasks pj gi,
                              selectedIndex := m.selectedIndex - 1 }
  else some m

/-- Spec-side acceptance predicate for due dates with the *strict* year
bounds the source actually checks (`1900 < year < 3000`); the amended form
of the claim. -/
def SpecAcceptedDate (s : String) : Prop :=
  ∃ ys ms ds : String, ∃ yi mi di : Int,
    splitDash s = [ys, ms, ds] ∧
    atoi? ys = some yi ∧ atoi? ms = some mi ∧ atoi? ds = some di ∧
    1900 < yi ∧ yi < 3000 ∧ 1 ≤ mi ∧ mi ≤ 12 ∧ 1 ≤ di ∧ di ≤ 31

/-- Spec-side acceptance predicate for due dates exactly as the claim words
it: year in the *inclusive* range [1900,3000]. -/
def SpecClaimedDate (s : String) : Prop :=
  ∃ ys ms ds : String, ∃ yi mi di : Int,
    splitDash s = [ys, ms, ds] ∧
    atoi? ys = some yi ∧ atoi? ms = some mi ∧ atoi? ds = some di ∧
    1900 ≤ yi ∧ yi ≤ 3000 ∧ 1 ≤ mi ∧ mi ≤ 12 ∧ 1 ≤ di ∧ di ≤ 31

/-- Identity invariant of the store: surviving IDs are pairwise distinct and
all lie below the `nextID` counter. -/
abbrev IdInv (m : Model) : Prop :=
  (m.tasks.map (fun t => t.ID)).Nodup ∧ ∀ t ∈ m.tasks, t.ID < m.nextID

/-- Store operations quantified over in the ID-freshness claim. -/
inductive Op where
  | add (text : String)
  | del (idx : Int)

/-- Run a sequence of `addTask`/`deleteCurrentTask` operations (a delete
targets the visible position given by the user's selection), collecting the
IDs assigned by the adds; `none` when a delete panics. -/
def runOps : Model → List Op → Option (Model × List Int)
  | m, [] => some (m, [])
  | m, Op.add s :: rest =>
      (runOps (addTask m s) rest).map (fun p => (p.1, m.nextID :: p.2))
  | m, Op.del i :: rest =>
      match deleteCurrentTask { m with selectedIndex := i } with
      | none => none
      | some m2 => runOps m2 rest

/-- What undoing after a mutation restores: the pre-mutation task sequence,
a reset cursor, and a context registry rebuilt from the restored tasks. -/
abbrev RestoreAfter (m : Model) (r : Option Model) : Prop :=
  ∀ m2 : Model, r = some m2 →
    (undo m2).tasks = m.tasks ∧ (undo m2).selectedIndex = 0 ∧
    (undo m2).contexts = contextsOf m.tasks

/-- Neutral state all concrete example states below are built from. -/
def baseModel : Model :=
  { tasks := [], contexts := [], currentContext := "", selectedIndex := 0, nextID := 1,
    viewMode := ViewMode.NormalView, inputMode := InputMode.AddTaskInput, searchResults := [],
    prevContext := "", prevIndex := 0, movingMode := false, movingTaskIndex := 0,
    removeTagChecks := [], errorMessage := "", history := [], maxHistory := 50 }

/-- One visible task but a stale selection index 1 (the shape a selection
restored on search exit takes after a deletion during search). -/
def mC1 : Model :=
  { baseModel with
    tasks := [{ ID := 1, task := "a", checked := false, context := "Work",
                priority := "", tags := [], dueDate := "" }],
    contexts := ["Work"], currentContext := "Work", selectedIndex := 1 }

/-- Three tasks in contexts X, Y, X; context X current, its second visible
task selected.  The visible neighbor of the selected task is task 1, its
array neighbor is task 2. -/
def mC2 : Model :=
  { baseModel with
    tasks :=
      [{ ID := 1, task := "a", checked := false, context := "X", priority := "", tags := [], dueDate := "" },
       { ID := 2, task := "b", checked := false, context := "Y", priority := "", tags := [], dueDate := "" },
       { ID := 3, task := "c", checked := false, context := "X", priority := "", tags := [], dueDate := "" }],
    contexts := ["X", "Y"], currentContext := "X", selectedIndex := 1 }

/-- First task of the two-task move witness state. -/
def tA : Task :=
  { ID := 1, task := "a", checked := false, context := "W", priority := "", tags := [], dueDate := "" }

/-- Second task of the two-task move witness state. -/
def tB : Task :=
  { ID := 2, task := "b", checked := false, context := "W", priority := "", tags := [], dueDate := "" }

/-- Two same-context tasks with the first selected, for the amended
move statement. -/
def mC2w : Model :=
  { baseModel with tasks := [tA, tB], contexts := ["W"], currentContext := "W", selectedIndex := 0 }

/-- Search view whose underlying context shrank to one task while the saved
pre-search index is 1. -/
def mC3 : Model :=
  { baseModel with
    tasks := [{ ID := 1, task := "a", checked := false, context := "Work",
                priority := "", tags := [], dueDate := "" }],
    contexts := ["Work"], currentContext := "Work",
    viewMode := ViewMode.SearchView,
    searchResults := [{ ID := 1, task := "a", checked := false, context := "Work",
                        priority := "", tags := [], dueDate := "" }],
    prevContext := "Work", prevIndex := 1, selectedIndex := 0 }

/-- Two same-context tasks, first selected, move mode off: the state in
which the move-mode scenario of the claim starts. -/
def mC5 : Model :=
  { baseModel with
    tasks :=
      [{ ID := 1, task := "a", checked := false, context := "W", priority := "", tags := [], dueDate := "" },
       { ID := 2, task := "b", checked := false, context := "W", priority := "", tags := [], dueDate := "" }],
    contexts := ["W"], currentContext := "W" }

/-- A state with maximum task ID 1 but counter 5 (the state left behind by
the default document after tasks 2, 3, 4 are deleted). -/
def mC6 : Model :=
  { baseModel with
    tasks := [{ ID := 1, task := "t1", checked := false, context := "Work",
                priority := "", tags := [], dueDate := "" }],
    contexts := ["Work"], currentContext := "Work", nextID := 5 }

/-- Start state and operation list for the ID-freshness witness. -/
def mC7 : Model := { baseModel with contexts := ["Work"], currentContext := "Work" }

/-- Operation list for the ID-freshness witness: add, delete, add. -/
def opsC7 : List Op := [Op.add "a", Op.del 0, Op.add "b"]

/-- Final state of running `opsC7` from `mC7`. -/
def mC7f : Model :=
  { baseModel with
    tasks := [{ ID := 2, task := "b", checked := false, context := "Work",
                priority := "", tags := [], dueDate := "" }],
    contexts := ["Work"], currentContext := "Work", nextID := 3 }

/-- A one-task state used by the due-date and undo witnesses. -/
def mC8 : Model :=
  { baseModel with
    tasks := [{ ID := 1, task := "t", checked := false, context := "Work",
                priority := "", tags := [], dueDate := "" }],
    contexts := ["Work"], currentContext := "Work", nextID := 2 }

/-- The spec's own search example, at the moment the search dialog is
confirmed. -/
def mC9 : Model :=
  { baseModel with
    tasks :=
      [{ ID := 1, task := "Buy milk", checked := false, context := "Work", priority := "", tags := [], dueDate := "" },
       { ID := 2, task := "Walk dog", checked := false, context := "Work", priority := "", tags := [], dueDate := "" }],
    contexts := ["Work"], currentContext := "Work",
    viewMode := ViewMode.InputView, inputMode := InputMode.SearchInput }

/-- C1: the claim says operations on the selected task degrade to a safe
no-op when the selection index does not denote an element of the non-empty
visible list.  In the source each such operation guards only against
emptiness and then indexes `tasks[m.selectedIndex]`; at `mC1` (one visible
task, selection index 1) every one of them indexes out of range — a Go
panic (`none`), not a no-op. -/
theorem toggle_out_of_range_faults :
    (getFilteredTasks mC1).length = 1 ∧
    toggleCurrentTask mC1 = none ∧
    editCurrentTask mC1 "x" = none ∧
    deleteCurrentTask mC1 = none ∧
    toggleCurrentTaskPriority mC1 = none ∧
    addTagToCurrentTask mC1 "t" = none ∧
    removeTagsFromCurrentTask mC1 = none ∧
    setDueDateForCurrentTask mC1 "2024-01-01" = none := by
  decide

/-- C2 counterexample: at `mC2` the source's `moveTaskUp` swaps the selected
task (ID 3) with its raw array predecessor of a *different* context (ID 2),
yielding global order [1,3,2], while the claim's context-scoped swap would
yield [3,2,1]. -/
theorem moveTaskUp_not_context_scoped_cex :
    (getFilteredTasks mC2).map (fun t => t.ID) = [1, 3] ∧
    (moveTaskUp mC2).map (fun x => x.tasks.map (fun t => t.ID)) = some [1, 3, 2] ∧
    (specMoveTaskUp mC2).map (fun x => x.tasks.map (fun t => t.ID)) = some [3, 2, 1] ∧
    (some [1, 3, 2] : Option (List Int)) ≠ some [3, 2, 1] := by
  decide

theorem swapUpGo_append (id : Int) (a b : Task) (l2 : List Task) (hb : b.ID = id)
    (ha : a.ID ≠ id) :
    ∀ (l : List Task) (prev : Task), (∀ t ∈ l, t.ID ≠ id) →
      swapUpGo id prev (l ++ a :: b :: l2) = prev :: (l ++ b :: a :: l2) := by
  intro l
  induction l with
  | nil =>
      intro prev _
      simp [swapUpGo, ha, hb]
  | cons c r ih =>
      intro prev h
      have hc : c.ID ≠ id := h c (by simp)
      simp only [List.cons_append, swapUpGo, if_neg hc, List.cons.injEq, true_and]
      exact ih c (fun t ht => h t (by simp [ht]))

theorem swapUp_append (id : Int) (a b : Task) (l1 l2 : List Task) (hb : b.ID = id)
    (h : ∀ t ∈ l1 ++ [a], t.ID ≠ id) :
    swapUp id (l1 ++ a :: b :: l2) = some (l1 ++ b :: a :: l2) := by
  have ha : a.ID ≠ id := h a (by simp)
  cases l1 with
  | nil => simp [swapUp, ha, swapUpGo, hb]
  | cons c r =>
      have hc : c.ID ≠ id := h c (by simp)
      simp only [List.cons_append, swapUp, if_neg hc, Option.some.injEq]
      exact swapUpGo_append id a b l2 hb ha r c (fun t ht => h t (by simp [ht]))

theorem swapDown_append (id : Int) (a b : Task) (l2 : List Task) (ha : a.ID = id) :
    ∀ l1 : List Task, (∀ t ∈ l1, t.ID ≠ id) →
      swapDown id (l1 ++ a :: b :: l2) = some (l1 ++ b :: a :: l2) := by
  intro l1
  induction l1 with
  | nil =>
      intro _
      simp [swapDown, ha]
  | cons c r ih =>
      intro h
      have hc : c.ID ≠ id := h c (by simp)
      simp only [List.cons_append, swapDown, if_neg hc, List.append_eq,
        ih (fun t ht => h t (by simp [ht])), Option.map_some']

/-- C2 (amended): `moveTask` swaps the selected visible task with its raw
array-adjacent neighbor in the global sequence — whatever that neighbor's
context — not with its nearest same-context neighbor: moving up swaps the
selected task `b` with the global predecessor `a`, moving down swaps the
selected task `a` with the global successor `b`, in both cases regardless
of the contexts involved. -/
theorem moveTask_swaps_array_adjacent (m : Model) (l1 l2 : List Task) (a b : Task) :
    (m.tasks = l1 ++ a :: b :: l2 →
     getAt (getFilteredTasks m) m.selectedIndex = some b →
     0 < m.selectedIndex →
     (∀ t ∈ l1 ++ [a], t.ID ≠ b.ID) →
     moveTaskUp m = some { m with tasks := l1 ++ b :: a :: l2,
                                  selectedIndex := m.selectedIndex - 1 }) ∧
    (m.tasks = l1 ++ a :: b :: l2 →
     getAt (getFilteredTasks m) m.selectedIndex = some a →
     m.selectedIndex < ((getFilteredTasks m).length : Int) - 1 →
     (∀ t ∈ l1, t.ID ≠ a.ID) →
     moveTaskDown m = some { m with tasks := l1 ++ b :: a :: l2,
                                    selectedIndex := m.selectedIndex + 1 }) := by
  constructor
  · intro htasks hsel hpos hids
    unfold moveTaskUp
    simp only [if_pos hpos, hsel]
    rw [htasks, swapUp_append b.ID a b l1 l2 rfl hids]
    rfl
  · intro htasks hsel hlt hids
    unfold moveTaskDown
    simp only [if_pos hlt, hsel]
    rw [htasks, swapDown_append a.ID a b l2 rfl l1 hids]
    rfl

/-- Witness for C2's amended theorem: on [tA, tB] moving the second task up
and moving the first task down both swap the raw adjacent pair. -/
theorem moveTask_swaps_array_adjacent_witness :
    moveTaskUp { mC2w with selectedIndex := 1 } =
      some { mC2w with tasks := [tB, tA], selectedIndex := 0 } ∧
    moveTaskDown mC2w = some { mC2w with tasks := [tB, tA], selectedIndex := 1 } :=
  ⟨(moveTask_swaps_array_adjacent { mC2w with selectedIndex := 1 } [] [] tA tB).1
      rfl (by decide) (by decide) (by decide),
   (moveTask_swaps_array_adjacent mC2w [] [] tA tB).2
      rfl (by decide) (by decide) (by decide)⟩

/-- C3: the claim says every visible-length-changing operation, search exit
included, leaves `cursor = min(cursor, max(0, newLength-1))`.
`exitSearchMode` restores the saved index verbatim: at `mC3` the restored
cursor is 1 over a visible list of length 1, violating the clamp. -/
theorem exitSearchMode_cursor_unclamped :
    (exitSearchMode mC3).selectedIndex = 1 ∧
    ((getFilteredTasks (exitSearchMode mC3)).length : Int) = 1 ∧
    (exitSearchMode mC3).selectedIndex ≠
      min (exitSearchMode mC3).selectedIndex
        (max 0 (((getFilteredTasks (exitSearchMode mC3)).length : Int) - 1)) := by
  decide

theorem saveState_tasks (m : Model) : (saveStateForUndo m).tasks = m.tasks := rfl

theorem saveState_nextID (m : Model) : (saveStateForUndo m).nextID = m.nextID := rfl

theorem addTask_tasks (x : Model) (s : String) :
    (addTask x s).tasks = x.tasks ++
      [{ ID := x.nextID, task := s, checked := false, context := x.currentContext,
         priority := "", tags := [], dueDate := "" }] := rfl

theorem addTask_nextID (x : Model) (s : String) : (addTask x s).nextID = x.nextID + 1 := rfl

theorem addTask_history (x : Model) (s : String) : (addTask x s).history = x.history := rfl

theorem saveState_history_getLast (m : Model) (hmax : 0 < m.maxHistory) :
    (saveStateForUndo m).history.getLast? = some m.tasks := by
  show (if m.maxHistory < (m.history ++ [m.tasks]).length
        then (m.history ++ [m.tasks]).drop 1
        else m.history ++ [m.tasks]).getLast? = some m.tasks
  split
  next hgt =>
    cases hh : m.history with
    | nil =>
        rw [hh] at hgt
        simp at hgt
        omega
    | cons c hs =>
        simp only [List.cons_append, List.drop_succ_cons, List.drop_zero]
        exact List.getLast?_concat _
  next => exact List.getLast?_concat _

theorem insertSorted_ne_nil (x : String) (l : List String) : insertSorted x l ≠ [] := by
  cases l with
  | nil => simp [insertSorted]
  | cons y r =>
      simp only [insertSorted]
      split <;> simp

theorem updateContexts_tasks (x : Model) : (updateContexts x).tasks = x.tasks := by
  simp only [updateContexts]
  split
  · split <;> rfl
  · rfl

theorem updateContexts_nextID (x : Model) : (updateContexts x).nextID = x.nextID := by
  simp only [updateContexts]
  split
  · split <;> rfl
  · rfl

theorem updateContexts_contexts (x : Model) :
    (updateContexts x).contexts = contextsOf x.tasks := by
  simp only [updateContexts, contextsOf]
  by_cases hcs : sortStrings (dedupStr (x.tasks.map (fun t => t.context))) = []
  · have hmap : x.tasks.map (fun t => t.context) = [] := by
      by_contra hne
      cases hm : x.tasks.map (fun t => t.context) with
      | nil => exact hne hm
      | cons c r =>
          rw [hm] at hcs
          exact insertSorted_ne_nil c _ hcs
    have hcond : x.currentContext = "" ∨ x.currentContext ∉ x.tasks.map (fun t => t.context) :=
      Or.inr (by rw [hmap]; simp)
    rw [if_pos hcond, if_pos hcs, if_pos hcs]
  · by_cases hcond : x.currentContext = "" ∨ x.currentContext ∉ x.tasks.map (fun t => t.context)
    · rw [if_pos hcond, if_neg hcs, if_neg hcs]
    · rw [if_neg hcond, if_neg hcs]

theorem undo_after_getLast (m2 : Model) (snap : List Task)
    (h : m2.history.getLast? = some snap) :
    (undo m2).tasks = snap ∧ (undo m2).selectedIndex = 0 ∧
    (undo m2).contexts = contextsOf snap := by
  unfold undo
  rw [h]
  refine ⟨?_, rfl, ?_⟩
  · show (updateContexts { m2 with tasks := snap, history := m2.history.dropLast }).tasks = snap
    rw [updateContexts_tasks]
  · show (updateContexts { m2 with tasks := snap, history := m2.history.dropLast }).contexts =
      contextsOf snap
    rw [updateContexts_contexts]

theorem undo_restore_core (m m2 : Model) (hmax : 0 < m.maxHistory)
    (hh : m2.history = (saveStateForUndo m).history) :
    (undo m2).tasks = m.tasks ∧ (undo m2).selectedIndex = 0 ∧
    (undo m2).contexts = contextsOf m.tasks := by
  have hl : m2.history.getLast? = some m.tasks := by
    rw [hh]; exact saveState_history_getLast m hmax
  exact undo_after_getLast m2 m.tasks hl

theorem toggleCurrentTask_history (x m2 : Model) (h : toggleCurrentTask x = some m2) :
    m2.history = x.history := by
  unfold toggleCurrentTask at h
  dsimp only at h
  split at h
  · injection h with h2; subst h2; rfl
  · split at h
    · exact Option.noConfusion h
    · injection h with h2; subst h2; rfl

theorem editCurrentTask_history (x : Model) (s : String) (m2 : Model)
    (h : editCurrentTask x s = some m2) : m2.history = x.history := by
  unfold editCurrentTask at h
  dsimp only at h
  split at h
  · injection h with h2; subst h2; rfl
  · split at h
    · exact Option.noConfusion h
    · injection h with h2; subst h2; rfl

theorem togglePriority_history (x m2 : Model) (h : toggleCurrentTaskPriority x = some m2) :
    m2.history = x.history := by
  unfold toggleCurrentTaskPriority at h
  dsimp only at h
  split at h
  · injection h with h2; subst h2; rfl
  · split at h
    · exact Option.noConfusion h
    · injection h with h2; subst h2; rfl

theorem addTag_history (x : Model) (s : String) (m2 : Model)
    (h : addTagToCurrentTask x s = some m2) : m2.history = x.history := by
  unfold addTagToCurrentTask at h
  dsimp only at h
  split at h
  · injection h with h2; subst h2; rfl
  · split at h
    · exact Option.noConfusion h
    · injection h with h2; subst h2; rfl

theorem removeTags_history (x m2 : Model) (h : removeTagsFromCurrentTask x = some m2) :
    m2.history = x.history := by
  unfold removeTagsFromCurrentTask at h
  dsimp only at h
  split at h
  · injection h with h2; subst h2; rfl
  · split at h
    · exact Option.noConfusion h
    · obtain ⟨ts, _, h2⟩ := Option.map_eq_some'.mp h
      subst h2; rfl

theorem applyDueDate_history (x : Model) (id : Int) (ds : String) :
    (applyDueDate x id ds).history = x.history := by
  unfold applyDueDate
  split
  · split
    · rfl
    · split
      · split <;> rfl
      · rfl
  · rfl

theorem setDueDate_history (x : Model) (ds : String) (m2 : Model)
    (h : setDueDateForCurrentTask x ds = some m2) : m2.history = x.history := by
  unfold setDueDateForCurrentTask at h
  dsimp only at h
  split at h
  · injection h with h2; subst h2; rfl
  · split at h
    · exact Option.noConfusion h
    · injection h with h2; subst h2; exact applyDueDate_history x _ ds

theorem deleteCurrentTask_history (x m2 : Model) (h : deleteCurrentTask x = some m2) :
    m2.history = x.history := by
  unfold deleteCurrentTask at h
  dsimp only at h
  split at h
  · injection h with h2; subst h2; rfl
  · split at h
    · exact Option.noConfusion h
    · injection h with h2; subst h2; split <;> rfl

theorem deleteContext_history (x : Model) : (deleteContext x).history = x.history := by
  unfold deleteContext
  dsimp only
  split
  · rfl
  · split <;> rfl

/-- C4: for every operation in the snapshot-pushing list (task-field
mutations, task add/delete, context deletion), push-snapshot; mutate; undo
restores the pre-mutation task sequence, rebuilds the context registry from
the restored tasks and resets the cursor to 0; undo on an empty history is
a no-op that sets the "Nothing to undo" message. -/
theorem undo_roundtrip_restores (m : Model) (txt tag ds : String) (hmax : 0 < m.maxHistory) :
    RestoreAfter m (some (addTask (saveStateForUndo m) txt)) ∧
    RestoreAfter m (editCurrentTask (saveStateForUndo m) txt) ∧
    RestoreAfter m (toggleCurrentTask (saveStateForUndo m)) ∧
    RestoreAfter m (toggleCurrentTaskPriority (saveStateForUndo m)) ∧
    RestoreAfter m (addTagToCurrentTask (saveStateForUndo m) tag) ∧
    RestoreAfter m (removeTagsFromCurrentTask (saveStateForUndo m)) ∧
    RestoreAfter m (setDueDateForCurrentTask (saveStateForUndo m) ds) ∧
    RestoreAfter m (deleteCurrentTask (saveStateForUndo m)) ∧
    RestoreAfter m (some (deleteContext (saveStateForUndo m))) ∧
    (m.history = [] → undo m = { m with errorMessage := "Nothing to undo" }) := by
  refine ⟨?_, ?_, ?_, ?_, ?_, ?_, ?_, ?_, ?_, ?_⟩
  · intro m2 h
    injection h with h2; subst h2
    exact undo_restore_core m _ hmax (addTask_history _ _)
  · intro m2 h
    exact undo_restore_core m m2 hmax (editCurrentTask_history _ _ _ h)
  · intro m2 h
    exact undo_restore_core m m2 hmax (toggleCurrentTask_history _ _ h)
  · intro m2 h
    exact undo_restore_core m m2 hmax (togglePriority_history _ _ h)
  · intro m2 h
    exact undo_restore_core m m2 hmax (addTag_history _ _ _ h)
  · intro m2 h
    exact undo_restore_core m m2 hmax (removeTags_history _ _ h)
  · intro m2 h
    exact undo_restore_core m m2 hmax (setDueDate_history _ _ _ h)
  · intro m2 h
    exact undo_restore_core m m2 hmax (deleteCurrentTask_history _ _ h)
  · intro m2 h
    injection h with h2; subst h2
    exact undo_restore_core m _ hmax (deleteContext_history _)
  · intro hE
    unfold undo
    rw [hE]
    rfl

/-- Witness for C4 at a concrete one-task state: pushing a snapshot, adding
a task and undoing restores the original task sequence. -/
theorem undo_roundtrip_restores_witness :
    0 < mC8.maxHistory ∧ (undo (addTask (saveStateForUndo mC8) "x")).tasks = mC8.tasks :=
  ⟨by decide,
   ((undo_roundtrip_restores mC8 "x" "t" "2024-05-05" (by decide)).1 _ rfl).1⟩

/-- C5: toggling move mode off pushes exactly one snapshot, but the snapshot
is taken *after* the reordering, so the single subsequent undo leaves the
reordered sequence [2,1] in place instead of restoring the pre-move order
[1,2] the claim promises. -/
theorem moveMode_undo_restores_post_reorder :
    mC5.tasks.map (fun t => t.ID) = [1, 2] ∧
    (pressDownKey (pressMoveKey mC5)).map
        (fun x => ((pressMoveKey x).history.length,
                   (undo (pressMoveKey x)).tasks.map (fun t => t.ID))) =
      some (1, [2, 1]) ∧
    ([2, 1] : List Int) ≠ [1, 2] := by
  decide

/-- C6 counterexample: at `mC6` the maximum existing ID is 1 but the counter
is 5 (reachable from the default document by deleting tasks 2–4), so
`addTask` assigns ID 5, not max+1 = 2 as the claim states. -/
theorem addTask_id_not_max_succ_cex :
    mC6.tasks.map (fun t => t.ID) = [1] ∧
    (addTask mC6 "x").tasks.map (fun t => t.ID) = [1, 5] ∧
    ([1, 5] : List Int) ≠ [1, 2] := by
  decide

/-- C6 (amended): `addTask` appends a task whose ID is the monotone `nextID`
counter — which coincides with max existing ID + 1 only while the counter
is freshly initialized from the task set — then increments the counter and
selects the last visible task; confirming the add dialog with empty
(trimmed) input performs no mutation. -/
theorem addTask_appends_counter_id (m : Model) (s raw : String)
    (hmode : m.inputMode = InputMode.AddTaskInput) (hraw : strTrim raw = "") :
    (addTask m s).tasks = m.tasks ++
      [{ ID := m.nextID, task := s, checked := false, context := m.currentContext,
         priority := "", tags := [], dueDate := "" }] ∧
    (addTask m s).nextID = m.nextID + 1 ∧
    (addTask m s).selectedIndex = ((getFilteredTasks (addTask m s)).length : Int) - 1 ∧
    confirmInput m raw = some { m with viewMode := ViewMode.NormalView } := by
  refine ⟨rfl, rfl, rfl, ?_⟩
  simp [confirmInput, hmode, hraw]

/-- Witness for C6's amended theorem at the counter-5 state `mC6`. -/
theorem addTask_appends_counter_id_witness :
    strTrim "  " = "" ∧ (addTask mC6 "x").nextID = mC6.nextID + 1 ∧
    confirmInput mC6 "  " = some { mC6 with viewMode := ViewMode.NormalView } := by
  have h := addTask_appends_counter_id mC6 "x" "  " rfl (by decide)
  exact ⟨by decide, h.2.1, h.2.2.2⟩

theorem removeFirst_sublist (id : Int) : ∀ l : List Task, (removeFirst id l).Sublist l := by
  intro l
  induction l with
  | nil => simp [removeFirst]
  | cons t r ih =>
      simp only [removeFirst]
      split
      · exact List.Sublist.cons t (List.Sublist.refl r)
      · exact List.Sublist.cons₂ t ih

theorem deleteCurrentTask_shape (x m2 : Model) (h : deleteCurrentTask x = some m2) :
    m2.tasks.Sublist x.tasks ∧ m2.nextID = x.nextID := by
  unfold deleteCurrentTask at h
  dsimp only at h
  split at h
  · injection h with h2; subst h2; exact ⟨List.Sublist.refl _, rfl⟩
  · split at h
    · exact Option.noConfusion h
    · injection h with h2
      subst h2
      constructor
      · split
        · exact removeFirst_sublist _ _
        · exact removeFirst_sublist _ _
      · split <;> rfl

theorem IdInv_addTask (x : Model) (s : String) (h : IdInv x) : IdInv (addTask x s) := by
  obtain ⟨hnd, hlt⟩ := h
  constructor
  · rw [addTask_tasks, List.map_append, List.nodup_append]
    refine ⟨hnd, by simp, ?_⟩
    intro i hi hmem
    obtain ⟨t, ht, rfl⟩ := List.mem_map.mp hi
    have hb := hlt t ht
    simp at hmem
    omega
  · intro t ht
    rw [addTask_nextID]
    rw [addTask_tasks] at ht
    rcases List.mem_append.mp ht with h1 | h1
    · have := hlt t h1; omega
    · simp at h1
      subst h1
      show x.nextID < x.nextID + 1
      omega

theorem IdInv_of_sub (x m2 : Model) (hsub : m2.tasks.Sublist x.tasks)
    (hid : m2.nextID = x.nextID) (h : IdInv x) : IdInv m2 := by
  obtain ⟨hnd, hlt⟩ := h
  refine ⟨List.Nodup.sublist (List.Sublist.map _ hsub) hnd, ?_⟩
  intro t ht
  rw [hid]
  exact hlt t (hsub.subset ht)

/-- C7: starting from any state whose surviving IDs are pairwise distinct
and below the counter, every sequence of `addTask`/`deleteCurrentTask`
operations preserves that invariant, never decreases `nextID`, and assigns
a strictly increasing (hence never-reassigned) sequence of IDs, all at or
above the initial counter value. -/
theorem id_uniqueness_invariant (ops : List Op) :
    ∀ (m0 mf : Model) (ids : List Int), IdInv m0 → runOps m0 ops = some (mf, ids) →
      IdInv mf ∧ m0.nextID ≤ mf.nextID ∧ ids.Pairwise (· < ·) ∧
      ∀ i ∈ ids, m0.nextID ≤ i := by
  induction ops with
  | nil =>
      intro m0 mf ids hinv hrun
      simp only [runOps, Option.some.injEq, Prod.mk.injEq] at hrun
      obtain ⟨rfl, rfl⟩ := hrun
      exact ⟨hinv, le_refl _, List.Pairwise.nil, by simp⟩
  | cons op rest ih =>
      intro m0 mf ids hinv hrun
      cases op with
      | add s =>
          simp only [runOps] at hrun
          cases hr : runOps (addTask m0 s) rest with
          | none => rw [hr] at hrun; exact Option.noConfusion hrun
          | some p =>
              obtain ⟨m1, ids1⟩ := p
              rw [hr] at hrun
              simp only [Option.map_some', Option.some.injEq, Prod.mk.injEq] at hrun
              obtain ⟨rfl, rfl⟩ := hrun
              obtain ⟨h1, h2, h3, h4⟩ := ih (addTask m0 s) m1 ids1 (IdInv_addTask m0 s hinv) hr
              have hstep : (addTask m0 s).nextID = m0.nextID + 1 := rfl
              refine ⟨h1, by omega, ?_, ?_⟩
              · exact List.Pairwise.cons (fun i hi => by have := h4 i hi; omega) h3
              · intro i hi
                rcases List.mem_cons.mp hi with rfl | hmem
                · exact le_refl _
                · have := h4 i hmem; omega
      | del idx =>
          simp only [runOps] at hrun
          cases hd : deleteCurrentTask { m0 with selectedIndex := idx } with
          | none => rw [hd] at hrun; exact Option.noConfusion hrun
          | some m2 =>
              rw [hd] at hrun
              obtain ⟨hsub, hid⟩ := deleteCurrentTask_shape _ m2 hd
              have hinv2 : IdInv m2 := IdInv_of_sub _ m2 hsub hid hinv
              obtain ⟨h1, h2, h3, h4⟩ := ih m2 mf ids hinv2 hrun
              have hnid : m2.nextID = m0.nextID := hid
              exact ⟨h1, by omega, h3, fun i hi => by have := h4 i hi; omega⟩

/-- Witness for C7: the run add, delete, add from the empty store assigns
the strictly increasing fresh IDs 1 and 2 and maintains the invariant. -/
theorem id_uniqueness_invariant_witness :
    IdInv mC7 ∧ runOps mC7 opsC7 = some (mC7f, [1, 2]) ∧
    (IdInv mC7f ∧ mC7.nextID ≤ mC7f.nextID ∧ ([1, 2] : List Int).Pairwise (· < ·) ∧
      ∀ i ∈ ([1, 2] : List Int), mC7.nextID ≤ i) :=
  ⟨by decide, by decide,
   id_uniqueness_invariant opsC7 mC7 mC7f [1, 2] (by decide) (by decide)⟩

theorem nested_ite_iff (p q r : Prop) [Decidable p] [Decidable q] [Decidable r] :
    ((if p then (if q then (if r then true else false) else false) else false) = true) ↔
      (p ∧ q ∧ r) := by
  by_cases hp : p <;> by_cases hq : q <;> by_cases hr : r <;> simp [hp, hq, hr]

/-- C8 (amended): a date string is accepted iff it splits into three
dash-separated integer components with the year strictly between 1900 and
3000 (exclusive bounds, unlike the claim's inclusive [1900,3000]), month in
[1..12] and day in [1..31], with no calendar-aware day-count check; a
rejected non-empty non-clear string leaves the tasks unchanged and only
sets the error message. -/
theorem validDate_iff_strict_bounds (s : String) (m : Model) (id : Int) (ds : String)
    (hinvalid : validDateStr ds = false) (hclear : strToLower ds ≠ "clear") (hne : ds ≠ "")
    (hid : m.tasks.any (fun t => t.ID = id) = true) :
    (validDateStr s = true ↔ SpecAcceptedDate s) ∧
    applyDueDate m id ds = { m with errorMessage := "Invalid date format. Use YYYY-MM-DD" } := by
  constructor
  · unfold validDateStr SpecAcceptedDate
    rcases hs : splitDash s with _ | ⟨y, _ | ⟨mo, _ | ⟨d, _ | ⟨e, r⟩⟩⟩⟩
    · simp
    · simp
    · simp
    · cases hy : atoi? y with
      | none => simp [hy]
      | some yi =>
          cases hmo : atoi? mo with
          | none => simp [hy, hmo]
          | some mi =>
              cases hd : atoi? d with
              | none => simp [hy, hmo, hd]
              | some di =>
                  simp only [hy, hmo, hd]
                  rw [nested_ite_iff]
                  constructor
                  · rintro ⟨⟨h1, h2⟩, ⟨h3, h4⟩, h5, h6⟩
                    exact ⟨y, mo, d, yi, mi, di, rfl, hy, hmo, hd, h1, h2, h3, h4, h5, h6⟩
                  · rintro ⟨ys, ms, ds2, yi2, mi2, di2, heq, hy2, hm2, hd2,
                      r1, r2, r3, r4, r5, r6⟩
                    simp only [List.cons.injEq, and_true] at heq
                    obtain ⟨rfl, rfl, rfl⟩ := heq
                    obtain rfl := Option.some.inj (hy.symm.trans hy2)
                    obtain rfl := Option.some.inj (hmo.symm.trans hm2)
                    obtain rfl := Option.some.inj (hd.symm.trans hd2)
                    exact ⟨⟨r1, r2⟩, ⟨r3, r4⟩, r5, r6⟩
    · simp
  · unfold applyDueDate
    rw [if_pos hid, if_neg hclear, if_pos hne, if_neg (by simp [hinvalid])]

/-- Witness for C8: "2024-02-31" is accepted under the relaxed policy,
"2024-13-01" is rejected, setting the message and leaving tasks alone. -/
theorem validDate_iff_strict_bounds_witness :
    validDateStr "2024-13-01" = false ∧ strToLower "2024-13-01" ≠ "clear" ∧
    ("2024-13-01" : String) ≠ "" ∧ mC8.tasks.any (fun t => t.ID = 1) = true ∧
    validDateStr "2024-02-31" = true ∧
    (validDateStr "2024-02-31" = true ↔ SpecAcceptedDate "2024-02-31") ∧
    applyDueDate mC8 1 "2024-13-01" =
      { mC8 with errorMessage := "Invalid date format. Use YYYY-MM-DD" } := by
  have h := validDate_iff_strict_bounds "2024-02-31" mC8 1 "2024-13-01"
    (by decide) (by decide) (by decide) (by decide)
  exact ⟨by decide, by decide, by decide, by decide, by decide, h.1, h.2⟩

theorem undo_nextID (x : Model) : (undo x).nextID = x.nextID := by
  unfold undo
  cases hx : x.history.getLast? with
  | none => rfl
  | some snap =>
      show (updateContexts { x with tasks := snap, history := x.history.dropLast }).nextID =
        x.nextID
      rw [updateContexts_nextID]

/-- C10: undo snapshots carry only the task sequence, so undo leaves the
`nextID` counter unchanged; undoing an add therefore keeps the incremented
counter while restoring the tasks, and a task added after the undo receives
the fresh ID counter+1, different from the undone task's ID (the old
counter value) and from every surviving ID. -/
theorem undo_preserves_nextID (m : Model) (t1 t2 : String)
    (hinv : IdInv m) (hmax : 0 < m.maxHistory) :
    (undo m).nextID = m.nextID ∧
    (undo (addTask (saveStateForUndo m) t1)).nextID = m.nextID + 1 ∧
    (undo (addTask (saveStateForUndo m) t1)).tasks = m.tasks ∧
    ((addTask (saveStateForUndo (undo (addTask (saveStateForUndo m) t1))) t2).tasks.getLast?).map
        (fun t => t.ID) = some (m.nextID + 1) ∧
    m.nextID + 1 ≠ m.nextID ∧
    (m.nextID + 1) ∉ m.tasks.map (fun t => t.ID) := by
  have h2 : (undo (addTask (saveStateForUndo m) t1)).nextID = m.nextID + 1 := by
    rw [undo_nextID]; rfl
  refine ⟨undo_nextID m, h2, ?_, ?_, by omega, ?_⟩
  · exact (undo_restore_core m _ hmax (addTask_history _ _)).1
  · rw [addTask_tasks, List.getLast?_concat]
    simp only [Option.map_some']
    show some ((saveStateForUndo (undo (addTask (saveStateForUndo m) t1))).nextID) =
      some (m.nextID + 1)
    rw [saveState_nextID, h2]
  · intro hmem
    obtain ⟨t, ht, hidt⟩ := List.mem_map.mp hmem
    have := hinv.2 t ht
    omega

/-- Witness for C10 at the one-task state `mC8`. -/
theorem undo_preserves_nextID_witness :
    IdInv mC8 ∧ 0 < mC8.maxHistory ∧
    (undo (addTask (saveStateForUndo mC8) "a")).nextID = mC8.nextID + 1 :=
  ⟨by decide, by decide, (undo_preserves_nextID mC8 "a" "b" (by decide) (by decide)).2.1⟩

/-- C8 counterexample: "1900-01-01" is a valid date under the claim's
inclusive year range [1900,3000], but the source's strict comparison
`year > 1900` rejects it. -/
theorem date_year_1900_rejected_cex :
    SpecClaimedDate "1900-01-01" ∧ validDateStr "1900-01-01" = false := by
  exact ⟨⟨"1900", "01", "01", 1900, 1, 1, by decide⟩, by decide⟩

/-- C9: confirming the search dialog runs `searchTasks`, which computes the
right case-insensitive matches and sets `SearchView`, but the confirm
handler then unconditionally resets the view mode, so search mode is never
entered: on the spec's own example the confirmed model is in `NormalView`
with the results computed but undisplayed, and a no-match query also ends
in `NormalView` with a message. -/
theorem search_confirm_stays_normal_view :
    (searchTasks mC9 "milk").viewMode = ViewMode.SearchView ∧
    (searchTasks mC9 "milk").searchResults.map (fun t => t.ID) = [1] ∧
    (confirmInput mC9 "milk").map
        (fun x => (x.viewMode, x.searchResults.map (fun t => t.ID))) =
      some (ViewMode.NormalView, [1]) ∧
    (confirmInput mC9 "xyz").map
        (fun x => (x.viewMode, x.errorMessage, x.searchResults.length)) =
      some (ViewMode.NormalView, "No tasks matching xyz", 0) ∧
    ViewMode.NormalView ≠ ViewMode.SearchView := by
  decide

end Tuido
